import Mathlib

-- Shallow embedding of src/main.go (a CLI that lists a 115 cloud drive and
-- resolves playable stream URLs).  Go strings are modelled as lists of
-- characters; the backend (the 115driver library plus HTTP) is modelled as
-- explicit result-valued fields, since every claim is about how main.go
-- consumes those results.

abbrev Str := List Char

/-- Convert a Lean string literal to the character-list model. -/
def str (s : String) : Str := s.data

-- ## Go string primitives used by main.go

/-- strings.Split with a single-character separator (main.go uses "\n" and "/"). -/
def splitChar (c : Char) : Str → List Str
  | [] => [[]]
  | x :: xs =>
    let r := splitChar c xs
    if x = c then [] :: r
    else
      match r with
      | [] => [[x]]
      | h :: t => (x :: h) :: t

/-- Whitespace test: the ASCII part of Go's unicode.IsSpace (space, TAB, LF, VT, FF, CR);
the non-ASCII space characters Go also accepts do not occur in any claim. -/
def isSpaceGo (c : Char) : Bool := c.toNat = 32 || (9 ≤ c.toNat && c.toNat ≤ 13)

/-- strings.TrimSpace. -/
def goTrimSpace (l : Str) : Str := ((l.dropWhile isSpaceGo).reverse.dropWhile isSpaceGo).reverse

/-- strings.LastIndex with a single-character needle, returned as the pieces
before and after the last occurrence (none when the character is absent).
main.go slices `s[:lastIdx]` and `s[lastIdx+1:]`, which are exactly the two pieces. -/
def breakAtLast (c : Char) : Str → Option (Str × Str)
  | [] => none
  | x :: xs =>
    match breakAtLast c xs with
    | some (pre, post) => some (x :: pre, post)
    | none => if x = c then some ([], xs) else none

/-- strings.TrimSuffix(q, "p"): drop one trailing 'p' when present. -/
def trimSuffixP (l : Str) : Str := if l.getLast? = some 'p' then l.dropLast else l

def digitVal (c : Char) : Option Nat :=
  if '0' ≤ c ∧ c ≤ '9' then some (c.toNat - '0'.toNat) else none

def parseDigits (l : Str) : Option Nat :=
  if l = [] then none
  else
    l.foldl (fun acc c =>
      match acc, digitVal c with
      | some n, some d => some (10 * n + d)
      | _, _ => none) (some 0)

/-- strconv.Atoi: optional sign, then a non-empty digit run covering the whole
string (int64 overflow is not modelled; every input here is a short resolution). -/
def goAtoi : Str → Option Int
  | [] => none
  | c :: rest =>
    if c = '+' then (parseDigits rest).map Int.ofNat
    else if c = '-' then (parseDigits rest).map (fun n => -(n : Int))
    else (parseDigits (c :: rest)).map Int.ofNat

/-- strings.ToLower (ASCII range; Go also lowercases non-ASCII letters,
which no claim exercises). -/
def goToLower (l : Str) : Str := l.map Char.toLower

-- ## The RESOLUTION regular expression

/-- One attempt of the regular expression RESOLUTION=\d+x(\d+) anchored at the
start of l: the literal, one or more digits, the literal x, then the captured
maximal digit run.  Backtracking inside \d+ cannot rescue a failed attempt
(a shortened run would leave a digit where the x is required), so the maximal
runs are the exact regex semantics. -/
def matchResAt (l : Str) : Option Str :=
  if (str "RESOLUTION=").isPrefixOf l then
    let rest := l.drop 11
    let w := rest.takeWhile Char.isDigit
    if w = [] then none
    else
      match rest.drop w.length with
      | 'x' :: r3 =>
        let h := r3.takeWhile Char.isDigit
        if h = [] then none else some h
      | _ => none
  else none

/-- regexp.FindStringSubmatch for RESOLUTION=\d+x(\d+): leftmost occurrence
that completes a match wins; returns the captured height digits. -/
def findRes : Str → Option Str
  | [] => none
  | c :: t =>
    match matchResAt (c :: t) with
    | some h => some h
    | none => findRes t

-- ## Stream discovery (handleGetStreams, src/main.go:225-312)

/-- StreamInfo (src/main.go:34-38). -/
structure StreamInfo where
  quality : Str
  url : Str
  isM3U8 : Bool
deriving DecidableEq

def srcQ : Str := str "Source"

/-- Quality label of one #EXT-X-STREAM-INF line (src/main.go:258-263):
the captured height plus "p", or "Unknown" when the pattern does not match. -/
def variantQuality (line : Str) : Str :=
  match findRes line with
  | some h => h ++ str "p"
  | none => str "Unknown"

/-- The manifest-parsing loop (src/main.go:252-272): for every line starting
with the tag, the immediately following line (when one exists) is trimmed and
kept as the variant URL when it starts with "http". -/
def parseVariants : List Str → List StreamInfo
  | [] => []
  | line :: rest =>
    (if (str "#EXT-X-STREAM-INF").isPrefixOf line then
      match rest with
      | [] => []
      | next :: _ =>
        let u := goTrimSpace next
        if (str "http").isPrefixOf u then [⟨variantQuality line, u, true⟩] else []
    else []) ++ parseVariants rest

/-- Adaptive candidates from a fetched manifest body (src/main.go:250-274):
parsed only when the body starts with the magic marker. -/
def adaptiveFromBody (body : Str) : List StreamInfo :=
  if (str "#EXTM3U").isPrefixOf body then parseVariants (splitChar '\n' body) else []

/-- Backend results consumed by handleGetStreams: the DownloadWithUA call
(an error, or the returned URL which may be empty) and the raw m3u8 GET
(an error, or the response body). -/
structure StreamBackend where
  download : Except Str Str
  m3u8 : Except Str Str

/-- The direct-source step (src/main.go:236-243): a candidate only when the
call succeeded and the URL is non-empty. -/
def sourceCands (b : StreamBackend) : List StreamInfo :=
  match b.download with
  | .ok u => if u ≠ [] then [⟨srcQ, u, false⟩] else []
  | .error _ => []

/-- The adaptive-manifest step (src/main.go:246-274): a fetch error is swallowed. -/
def adaptiveCands (b : StreamBackend) : List StreamInfo :=
  match b.m3u8 with
  | .ok body => adaptiveFromBody body
  | .error _ => []

/-- The candidate list as accumulated by handleGetStreams before sorting. -/
def collectCandidates (b : StreamBackend) : List StreamInfo :=
  sourceCands b ++ adaptiveCands b

/-- Numeric value of a quality label: strconv.Atoi(strings.TrimSuffix(q, "p")). -/
def qVal (s : StreamInfo) : Option Int := goAtoi (trimSuffixP s.quality)

/-- The sort.Slice comparator (src/main.go:281-294).  Note it returns false
whenever either side fails to parse (and is not "Source"). -/
def goLess (a b : StreamInfo) : Bool :=
  if a.quality = srcQ then true
  else if b.quality = srcQ then false
  else
    match qVal a, qVal b with
    | some x, some y => decide (x > y)
    | _, _ => false

-- ## Go's sort.Slice, for the slice sizes this program produces

/-- One Go insertion-sort step: the already-placed prefix is carried in
reversed order (the element Go compares first is the head), and the new
element a sinks below every p with less a p. -/
def insRev (less : α → α → Bool) (a : α) : List α → List α
  | [] => [a]
  | p :: ps => if less a p then p :: insRev less a ps else a :: p :: ps

def sortAcc (less : α → α → Bool) (l acc : List α) : List α :=
  l.foldl (fun acc a => insRev less a acc) acc

/-- Model of Go's sort.Slice: pdqsort runs plain insertion sort on slices of
at most 12 elements, which this definition reproduces exactly (longer slices
switch to unstable partitioning, not modelled; every list appearing in the
claims is shorter). -/
def sortSliceModel (less : α → α → Bool) (l : List α) : List α :=
  (sortAcc less l []).reverse

/-- The comparator used by the key-based sorting lemmas. -/
def lessK (key : α → Int) (a b : α) : Bool := decide (key a > key b)

/-- Sort key actually realised by the comparator on parseable labels. -/
def qKey (s : StreamInfo) : Int := (qVal s).getD 0

/-- The quality ranking step (src/main.go:281-294). -/
def rankStreams (l : List StreamInfo) : List StreamInfo := sortSliceModel goLess l

def noStreamsMsg : Str := str "未能获取任何播放链接"

/-- handleGetStreams after the pick code has been resolved
(src/main.go:232-294): collect both sources, fail when nothing was found,
otherwise return the ranked list. -/
def handleGetStreamsModel (b : StreamBackend) : Except Str (List StreamInfo) :=
  if collectCandidates b = [] then .error noStreamsMsg
  else .ok (rankStreams (collectCandidates b))

-- ## Listing and path resolution (handleList / resolveFilePickCode)

/-- driver.DirName2CID result; only the CategoryID field is used. -/
structure DirResult where
  categoryID : Str
deriving DecidableEq

/-- driver.File, restricted to the fields main.go reads. -/
structure FsEntry where
  name : Str
  isDirectory : Bool
  pickCode : Str
  categoryID : Str
deriving DecidableEq

/-- The two backend calls the listing code makes: driver.DirName2CID and the
natural-sorted child listing that getFilesSortedByName requests. -/
structure ListBackend where
  dirName2CID : Str → Except Str DirResult
  listChildren : Str → Except Str (List FsEntry)

/-- getFilesSortedByName (src/main.go:363-399): normalises an empty id to the
root "0" and fetches the natural-sorted listing for that directory id. -/
def getFilesSortedByName (b : ListBackend) (dirID : Str) : Except Str (List FsEntry) :=
  b.listChildren (if dirID = [] then str "0" else dirID)

/-- Path-resolution portion of handleList (src/main.go:134-143): the root
paths map to "0", every other path is passed to driver.DirName2CID. -/
def resolveListCid (b : ListBackend) (path : Str) : Except Str Str :=
  if path = str "/" ∨ path = [] then .ok (str "0")
  else
    match b.dirName2CID path with
    | .ok r => .ok r.categoryID
    | .error e => .error (str "解析路径失败: " ++ e)

/-- Error kinds of resolveFilePickCode; each constructor corresponds to one
fmt.Errorf site (无效的文件路径 / 解析目录路径失败 / 获取目录内容失败 / 文件不存在). -/
inductive LocErr where
  | invalidPath
  | dirResolve (e : Str)
  | listFailed (e : Str)
  | fileNotFound (name : Str)
deriving DecidableEq

/-- Directory-cid resolution inside resolveFilePickCode (src/main.go:325-338):
an empty directory prefix defaults to "/", "/" maps to "0", anything else is
passed to driver.DirName2CID. -/
def locatorDirCid (b : ListBackend) (dirPath : Str) : Except Str Str :=
  let dp := if dirPath = [] then str "/" else dirPath
  if dp = str "/" then .ok (str "0")
  else
    match b.dirName2CID dp with
    | .ok r => .ok r.categoryID
    | .error e => .error (str "解析目录路径失败: " ++ e)

/-- Linear scan for the first non-directory entry with the exact name
(src/main.go:345-352). -/
def scanForFile (files : List FsEntry) (fileName : Str) : Option FsEntry :=
  files.find? (fun f => !f.isDirectory && f.name == fileName)

/-- resolveFilePickCode after the split (src/main.go:325-358). -/
def locateStage (b : ListBackend) (dirPath fileName : Str) : Except LocErr (FsEntry × Str) :=
  match locatorDirCid b dirPath with
  | .error e => .error (.dirResolve e)
  | .ok cid =>
    match getFilesSortedByName b cid with
    | .error e => .error (.listFailed e)
    | .ok files =>
      match scanForFile files fileName with
      | some f => .ok (f, f.pickCode)
      | none => .error (.fileNotFound fileName)

/-- resolveFilePickCode (src/main.go:315-359). -/
def resolveFilePickCode (b : ListBackend) (filePath : Str) : Except LocErr (FsEntry × Str) :=
  match breakAtLast '/' filePath with
  | none => .error .invalidPath
  | some (dp, fn) => locateStage b dp fn

-- ## List output items (handleList, src/main.go:152-173)

/-- FileItem (src/main.go:26-31); an empty extension / nameNoExt is omitted
from the JSON output by the omitempty tags. -/
structure FileItem where
  name : Str
  type : Str
  extension : Str
  nameNoExt : Str
deriving DecidableEq

/-- Conversion of one listed entry to the CLI item (src/main.go:153-173). -/
def mkFileItem (f : FsEntry) : FileItem :=
  if f.isDirectory then
    { name := f.name ++ str "/", type := str "dir", extension := [], nameNoExt := [] }
  else
    match breakAtLast '.' f.name with
    | some (pre, post) =>
      { name := f.name, type := str "file", extension := goToLower post, nameNoExt := pre }
    | none =>
      { name := f.name, type := str "file", extension := [], nameNoExt := f.name }

def handleListItems (files : List FsEntry) : List FileItem := files.map mkFileItem

-- ## CLI flags and listing request parameters

/-- The flags registered in main (src/main.go:51-55): action and path only. -/
def mainFlagNames : List Str := [str "action", str "path"]

/-- Query parameters built by getFilesSortedByName (src/main.go:370-383); the
driver library's order constant FileOrderByName is abstracted as the
parameter orderByName since its value lives outside this repository. -/
def listRequestParams (orderByName dirID limitStr : Str) : List (Str × Str) :=
  [(str "aid", str "1"),
   (str "cid", dirID),
   (str "o", orderByName),
   (str "asc", str "1"),
   (str "offset", str "0"),
   (str "show_dir", str "1"),
   (str "limit", limitStr),
   (str "snap", str "0"),
   (str "natsort", str "1"),
   (str "record_open_time", str "1"),
   (str "format", str "json"),
   (str "fc_mix", str "0")]

-- ## Definitions following the spec's words (for refutation / refinement)

/-- Formalisation of the claim wording (spec section 4.2): strip a single
leading slash. -/
def stripLeadingSlashSpec (p : Str) : Str :=
  match p with
  | '/' :: r => r
  | _ => p

/-- Formalisation of the claim wording: split on '/', discard empty segments. -/
def pathSegmentsSpec (p : Str) : List Str :=
  (splitChar '/' (stripLeadingSlashSpec p)).filter (fun s => ¬s = [])

inductive WalkErr where
  | pathNotFound (seg : Str)
  | listFailed (e : Str)
deriving DecidableEq

/-- Formalisation of the claim wording (spec section 4.2): walk the segments,
listing each directory via the Sorted Lister and matching the first directory
entry with the exact segment name. -/
def walkSegsSpec (b : ListBackend) : Str → List Str → Except WalkErr Str
  | cid, [] => .ok cid
  | cid, seg :: rest =>
    match getFilesSortedByName b cid with
    | .error e => .error (.listFailed e)
    | .ok files =>
      match files.find? (fun f => f.isDirectory && f.name == seg) with
      | some f => walkSegsSpec b f.categoryID rest
      | none => .error (.pathNotFound seg)

/-- Formalisation of the claimed resolution algorithm: walk from the root
sentinel "0". -/
def resolveWalkSpec (b : ListBackend) (p : Str) : Except WalkErr Str :=
  walkSegsSpec b (str "0") (pathSegmentsSpec p)

/-- Formalisation of the claim wording (spec section 4.4): the first
non-empty line, after trimming. -/
def firstNonEmptySpec : List Str → Option Str
  | [] => none
  | l :: ls => if goTrimSpace l = [] then firstNonEmptySpec ls else some (goTrimSpace l)

/-- Formalisation of the claim wording for C4: pair each tag line with the
next NON-EMPTY line. -/
def variantsNextNonEmptySpec : List Str → List StreamInfo
  | [] => []
  | line :: rest =>
    (if (str "#EXT-X-STREAM-INF").isPrefixOf line then
      match firstNonEmptySpec rest with
      | some u => if (str "http").isPrefixOf u then [⟨variantQuality line, u, true⟩] else []
      | none => []
    else []) ++ variantsNextNonEmptySpec rest

/-- One tag-line/next-line pair of the amended C4 wording. -/
def variantOfPair (line next : Str) : Option StreamInfo :=
  if (str "#EXT-X-STREAM-INF").isPrefixOf line then
    let u := goTrimSpace next
    if (str "http").isPrefixOf u then some ⟨variantQuality line, u, true⟩ else none
  else none

/-- The amended C4 wording: each line paired with its immediate successor. -/
def variantsByNextLine (lines : List Str) : List StreamInfo :=
  (lines.zip lines.tail).filterMap (fun p => variantOfPair p.1 p.2)

-- ## Concrete data for counterexamples and witnesses

def c1List : Str → Except Str (List FsEntry) :=
  fun cid => if cid = str "0" then .ok [] else .error (str "missing")

def c1B1 : ListBackend :=
  ⟨fun p => if p = str "a" then .ok ⟨str "42"⟩ else .error (str "boom"), c1List⟩

def c1B2 : ListBackend :=
  ⟨fun p => if p = str "a" then .ok ⟨str "7"⟩ else .error (str "boom"), c1List⟩

def c2Body : Str :=
  str "#EXTM3U\n#EXT-X-STREAM-INF:RESOLUTION=100x720\nhttp://a\n#EXT-X-STREAM-INF:\nhttp://b\n#EXT-X-STREAM-INF:RESOLUTION=100x1080\nhttp://c"

def c2B : StreamBackend := ⟨.error (str "no link"), .ok c2Body⟩

def c2WBody : Str :=
  str "#EXTM3U\n#EXT-X-STREAM-INF:RESOLUTION=8x720\nhttp://a\n#EXT-X-STREAM-INF:RESOLUTION=8x1080\nhttp://b"

def c2WB : StreamBackend := ⟨.ok (str "http://src"), .ok c2WBody⟩

def c3B : StreamBackend := ⟨.ok (str "http://u"), .error (str "fetch failed")⟩

def c4Body : Str :=
  str "#EXTM3U\n#EXT-X-STREAM-INF:RESOLUTION=1280x720\n\nhttp://e/v.m3u8"

def c4WBody : Str :=
  str "#EXTM3U\n#EXT-X-STREAM-INF:RESOLUTION=1920x1080\nhttp://w/hi.m3u8"

def c5B : ListBackend := ⟨fun _ => .error (str "e"), fun _ => .ok []⟩

def c6F : FsEntry := ⟨str "a.mkv", false, str "pc1", []⟩

def c6B : ListBackend :=
  ⟨fun _ => .error (str "unused"),
   fun cid => if cid = str "0" then .ok [c6F] else .error (str "missing")⟩

def c9Body : Str := str "#EXTM3U\n#EXT-X-STREAM-INF:RESOLUTION=4x480\nhttp://v"

def c9B : StreamBackend := ⟨.ok (str "http://u"), .ok c9Body⟩

def c10F : FsEntry := ⟨str "Movie.MKV", false, str "pc2", []⟩

def c10G : FsEntry := ⟨str "README", false, str "pc3", []⟩

-- ## Generic lemmas about the insertion-sort model

theorem insRev_split (less : α → α → Bool) (a : α) (acc : List α) :
    ∃ l1 l2, acc = l1 ++ l2 ∧ insRev less a acc = l1 ++ a :: l2 ∧ ∀ p ∈ l1, less a p = true := by
  induction acc with
  | nil => exact ⟨[], [], rfl, rfl, by simp⟩
  | cons p ps ih =>
    by_cases h : less a p
    · obtain ⟨l1, l2, he, hi, hp⟩ := ih
      refine ⟨p :: l1, l2, by simp [he], by simp [insRev, h, hi], ?_⟩
      intro q hq
      rcases List.mem_cons.mp hq with rfl | hq
      · exact h
      · exact hp q hq
    · exact ⟨[], p :: ps, rfl, by simp [insRev, h], by simp⟩

theorem insRev_perm (less : α → α → Bool) (a : α) (acc : List α) :
    List.Perm (insRev less a acc) (a :: acc) := by
  obtain ⟨l1, l2, he, hi, -⟩ := insRev_split less a acc
  rw [hi, he]
  exact List.perm_middle

theorem mem_insRev (less : α → α → Bool) (a x : α) (acc : List α) :
    x ∈ insRev less a acc ↔ x = a ∨ x ∈ acc := by
  simpa using (insRev_perm less a acc).mem_iff

theorem insRev_congr {less1 less2 : α → α → Bool} (a : α) (acc : List α)
    (h : ∀ p ∈ acc, less1 a p = less2 a p) : insRev less1 a acc = insRev less2 a acc := by
  induction acc with
  | nil => rfl
  | cons p ps ih =>
    have hp := h p (by simp)
    by_cases h2 : less2 a p
    · simp only [insRev, hp]
      simp only [h2, if_true]
      rw [ih (fun q hq => h q (by simp [hq]))]
    · have h2' : less2 a p = false := by simpa using h2
      simp [insRev, hp, h2']

theorem insRev_bottom (less : α → α → Bool) (a s : α) (acc : List α) (h : less a s = false) :
    insRev less a (acc ++ [s]) = insRev less a acc ++ [s] := by
  induction acc with
  | nil => simp [insRev, h]
  | cons p ps ih =>
    by_cases hp : less a p
    · simp [insRev, hp, ih]
    · simp [insRev, hp]

theorem sortAcc_nil (less : α → α → Bool) (acc : List α) : sortAcc less [] acc = acc := rfl

theorem sortAcc_cons (less : α → α → Bool) (a : α) (l acc : List α) :
    sortAcc less (a :: l) acc = sortAcc less l (insRev less a acc) := rfl

theorem sortAcc_perm (less : α → α → Bool) (l : List α) :
    ∀ acc, List.Perm (sortAcc less l acc) (l ++ acc) := by
  induction l with
  | nil => intro acc; simp [sortAcc_nil]
  | cons a t ih =>
    intro acc
    refine (ih (insRev less a acc)).trans ?_
    refine (List.Perm.append_left t (insRev_perm less a acc)).trans ?_
    exact List.perm_middle

theorem sortAcc_congr {less1 less2 : α → α → Bool} (l : List α) :
    ∀ acc, (∀ x ∈ l, ∀ y, (y ∈ l ∨ y ∈ acc) → less1 x y = less2 x y) →
    sortAcc less1 l acc = sortAcc less2 l acc := by
  induction l with
  | nil => intro acc _; rfl
  | cons a t ih =>
    intro acc h
    have h1 : insRev less1 a acc = insRev less2 a acc :=
      insRev_congr a acc (fun p hp => h a (by simp) p (Or.inr hp))
    rw [sortAcc_cons, sortAcc_cons, h1]
    apply ih
    intro x hx y hy
    apply h x (by simp [hx])
    rcases hy with hy | hy
    · exact Or.inl (by simp [hy])
    · rcases (mem_insRev less2 a y acc).mp hy with rfl | hy
      · exact Or.inl (by simp)
      · exact Or.inr hy

theorem sortAcc_bottom (less : α → α → Bool) (s : α) (l : List α) :
    ∀ acc, (∀ a ∈ l, less a s = false) →
    sortAcc less l (acc ++ [s]) = sortAcc less l acc ++ [s] := by
  induction l with
  | nil => intro acc _; rfl
  | cons a t ih =>
    intro acc h
    rw [sortAcc_cons, insRev_bottom less a s acc (h a (by simp)), sortAcc_cons]
    exact ih _ (fun x hx => h x (by simp [hx]))

theorem insRev_head? (less : α → α → Bool) (a : α) (ps : List α) :
    (insRev less a ps).head? = some a ∨ (insRev less a ps).head? = ps.head? := by
  cases ps with
  | nil => left; rfl
  | cons p ps' =>
    by_cases h : less a p
    · right; simp [insRev, h]
    · left; simp [insRev, h]

theorem insRev_chain (key : α → Int) (a : α) (acc : List α)
    (h : List.Chain' (fun x y => key x ≤ key y) acc) :
    List.Chain' (fun x y => key x ≤ key y) (insRev (lessK key) a acc) := by
  induction acc with
  | nil => simp [insRev]
  | cons p ps ih =>
    rw [List.chain'_cons'] at h
    by_cases hap : key a > key p
    · have hl : lessK key a p = true := decide_eq_true hap
      have hg : insRev (lessK key) a (p :: ps) = p :: insRev (lessK key) a ps := by
        simp [insRev, hl]
      rw [hg, List.chain'_cons']
      refine ⟨?_, ih h.2⟩
      intro y hy
      rcases insRev_head? (lessK key) a ps with h1 | h1
      · rw [h1] at hy
        cases hy
        omega
      · rw [h1] at hy
        exact h.1 y hy
    · have hl : lessK key a p = false := decide_eq_false hap
      have hg : insRev (lessK key) a (p :: ps) = a :: p :: ps := by
        simp [insRev, hl]
      rw [hg, List.chain'_cons']
      refine ⟨?_, List.chain'_cons'.mpr h⟩
      intro y hy
      cases hy
      omega

theorem insRev_filter_ne (less : α → α → Bool) (a : α) (acc : List α) (pv : α → Bool)
    (h : pv a = false) : (insRev less a acc).filter pv = acc.filter pv := by
  obtain ⟨l1, l2, he, hi, -⟩ := insRev_split less a acc
  rw [hi, he]
  simp [List.filter_append, List.filter_cons, h]

theorem insRev_filterK_eq (key : α → Int) (a : α) (acc : List α) {v : Int}
    (h : key a = v) :
    (insRev (lessK key) a acc).filter (fun x => decide (key x = v)) =
      a :: acc.filter (fun x => decide (key x = v)) := by
  induction acc with
  | nil => simp [insRev, h]
  | cons p ps ih =>
    by_cases hap : key a > key p
    · have hl : lessK key a p = true := decide_eq_true hap
      have hpv : (decide (key p = v)) = false := decide_eq_false (by omega)
      have hg : insRev (lessK key) a (p :: ps) = p :: insRev (lessK key) a ps := by
        simp [insRev, hl]
      rw [hg, List.filter_cons, hpv]
      simp only [Bool.false_eq_true, if_false]
      rw [ih]
      simp [List.filter_cons, hpv]
    · have hl : lessK key a p = false := decide_eq_false hap
      simp [insRev, hl, List.filter_cons, h]

theorem sortAcc_filterK (key : α → Int) (l : List α) (v : Int) :
    ∀ acc, (sortAcc (lessK key) l acc).filter (fun x => decide (key x = v)) =
      (l.filter (fun x => decide (key x = v))).reverse ++
        acc.filter (fun x => decide (key x = v)) := by
  induction l with
  | nil => intro acc; simp [sortAcc_nil]
  | cons a t ih =>
    intro acc
    rw [sortAcc_cons, ih]
    by_cases h : key a = v
    · rw [insRev_filterK_eq key a acc h]
      simp [List.filter_cons, h]
    · rw [insRev_filter_ne _ a acc _ (decide_eq_false h)]
      simp [List.filter_cons, h]

theorem sortAcc_chainK (key : α → Int) (l : List α) :
    ∀ acc, List.Chain' (fun x y => key x ≤ key y) acc →
    List.Chain' (fun x y => key x ≤ key y) (sortAcc (lessK key) l acc) := by
  induction l with
  | nil => intro acc h; exact h
  | cons a t ih => intro acc h; exact ih _ (insRev_chain key a acc h)

theorem sortSlice_perm (less : α → α → Bool) (l : List α) :
    List.Perm (sortSliceModel less l) l := by
  have h1 : List.Perm (sortSliceModel less l) (sortAcc less l []) := List.reverse_perm _
  have h2 := sortAcc_perm less l []
  simpa using h1.trans h2

theorem mem_sortSlice (less : α → α → Bool) (x : α) (l : List α) :
    x ∈ sortSliceModel less l ↔ x ∈ l :=
  (sortSlice_perm less l).mem_iff

theorem sortSlice_chainK (key : α → Int) (l : List α) :
    List.Chain' (fun x y => key x ≥ key y) (sortSliceModel (lessK key) l) := by
  have h := sortAcc_chainK key l [] (by simp)
  exact List.chain'_reverse.mpr h

theorem sortSlice_filterK (key : α → Int) (l : List α) (v : Int) :
    (sortSliceModel (lessK key) l).filter (fun x => decide (key x = v)) =
      l.filter (fun x => decide (key x = v)) := by
  rw [sortSliceModel, List.filter_reverse, sortAcc_filterK key l v []]
  simp

theorem sortSlice_cons_bottom (less : α → α → Bool) (s : α) (rest : List α)
    (h : ∀ a ∈ rest, less a s = false) :
    sortSliceModel less (s :: rest) = s :: sortSliceModel less rest := by
  have h2 : sortAcc less (s :: rest) [] = sortAcc less rest [] ++ [s] := by
    rw [sortAcc_cons]
    have h3 := sortAcc_bottom less s rest [] h
    simpa [insRev] using h3
  rw [sortSliceModel, h2]
  simp [sortSliceModel]

theorem sortSlice_congr {less1 less2 : α → α → Bool} (l : List α)
    (h : ∀ x ∈ l, ∀ y ∈ l, less1 x y = less2 x y) :
    sortSliceModel less1 l = sortSliceModel less2 l := by
  rw [sortSliceModel, sortSliceModel]
  rw [sortAcc_congr l [] (fun x hx y hy => by
    rcases hy with hy | hy
    · exact h x hx y hy
    · cases hy)]

-- ## Facts about the stream comparator and collected candidates

theorem qVal_of_source (s : StreamInfo) (h : s.quality = srcQ) : qVal s = none := by
  rw [qVal, h]
  decide

theorem quality_ne_source_of_parse (s : StreamInfo) (h : (qVal s).isSome) :
    s.quality ≠ srcQ := by
  intro hq
  rw [qVal_of_source s hq] at h
  simp at h

theorem goLess_eq_lessK (a b : StreamInfo) (ha : (qVal a).isSome) (hb : (qVal b).isSome) :
    goLess a b = lessK qKey a b := by
  obtain ⟨x, hx⟩ := Option.isSome_iff_exists.mp ha
  obtain ⟨y, hy⟩ := Option.isSome_iff_exists.mp hb
  rw [goLess, if_neg (quality_ne_source_of_parse a ha),
    if_neg (quality_ne_source_of_parse b hb), hx, hy]
  simp [lessK, qKey, hx, hy]

theorem goLess_source_right (a s : StreamInfo) (ha : a.quality ≠ srcQ)
    (hs : s.quality = srcQ) : goLess a s = false := by
  rw [goLess, if_neg ha, if_pos hs]

theorem parseVariants_cons (line : Str) (rest : List Str) :
    parseVariants (line :: rest) =
      (if (str "#EXT-X-STREAM-INF").isPrefixOf line then
        match rest with
        | [] => []
        | next :: _ =>
          if (str "http").isPrefixOf (goTrimSpace next) then
            [⟨variantQuality line, goTrimSpace next, true⟩] else []
      else []) ++ parseVariants rest := rfl

theorem variantQuality_ne_source (line : Str) : variantQuality line ≠ srcQ := by
  cases hr : findRes line with
  | none =>
    have he : variantQuality line = str "Unknown" := by
      rw [variantQuality, hr]
    rw [he]
    decide
  | some h =>
    have he : variantQuality line = h ++ str "p" := by
      rw [variantQuality, hr]
    rw [he]
    intro hq
    have h1 : (h ++ str "p").getLast? = some 'p' := List.getLast?_concat h
    rw [hq] at h1
    have h2 : srcQ.getLast? = some 'e' := by decide
    rw [h1] at h2
    cases h2

theorem mem_parseVariants (s : StreamInfo) (lines : List Str)
    (h : s ∈ parseVariants lines) :
    s.isM3U8 = true ∧ (str "http").isPrefixOf s.url = true ∧ s.quality ≠ srcQ := by
  induction lines with
  | nil => cases h
  | cons line rest ih =>
    rw [parseVariants_cons] at h
    rcases List.mem_append.mp h with h1 | h1
    · by_cases ht : (str "#EXT-X-STREAM-INF").isPrefixOf line
      · rw [if_pos ht] at h1
        cases rest with
        | nil => cases h1
        | cons next t =>
          by_cases hu : (str "http").isPrefixOf (goTrimSpace next)
          · simp only [hu, if_true] at h1
            rcases List.mem_singleton.mp h1 with rfl
            exact ⟨rfl, hu, variantQuality_ne_source line⟩
          · simp only [hu] at h1
            simp at h1
      · rw [if_neg ht] at h1
        cases h1
    · exact ih h1

theorem adaptiveCands_ok (b : StreamBackend) (body : Str) (hb : b.m3u8 = .ok body) :
    adaptiveCands b = adaptiveFromBody body := by
  unfold adaptiveCands
  rw [hb]

theorem adaptiveCands_error (b : StreamBackend) (e : Str) (hb : b.m3u8 = .error e) :
    adaptiveCands b = [] := by
  unfold adaptiveCands
  rw [hb]

theorem mem_adaptiveCands (b : StreamBackend) (s : StreamInfo)
    (h : s ∈ adaptiveCands b) :
    s.isM3U8 = true ∧ (str "http").isPrefixOf s.url = true ∧ s.quality ≠ srcQ := by
  cases hb : b.m3u8 with
  | error e =>
    rw [adaptiveCands_error b e hb] at h
    cases h
  | ok body =>
    rw [adaptiveCands_ok b body hb] at h
    unfold adaptiveFromBody at h
    by_cases hm : (str "#EXTM3U").isPrefixOf body
    · rw [if_pos hm] at h
      exact mem_parseVariants s _ h
    · rw [if_neg hm] at h
      cases h

theorem collect_shape (b : StreamBackend) :
    (sourceCands b = [] ∧ collectCandidates b = adaptiveCands b) ∨
    (∃ u, sourceCands b = [⟨srcQ, u, false⟩] ∧
      collectCandidates b = ⟨srcQ, u, false⟩ :: adaptiveCands b) := by
  rw [collectCandidates]
  cases hd : b.download with
  | error e => left; simp [sourceCands, hd]
  | ok u =>
    by_cases hu : u ≠ []
    · right
      exact ⟨u, by simp [sourceCands, hd, hu], by simp [sourceCands, hd, hu]⟩
    · left; simp [sourceCands, hd, hu]

-- ## Lemmas about last-occurrence splitting

theorem breakAtLast_cons (c x : Char) (xs : Str) :
    breakAtLast c (x :: xs) =
      match breakAtLast c xs with
      | some (pre, post) => some (x :: pre, post)
      | none => if x = c then some ([], xs) else none := rfl

theorem breakAtLast_eq_none (c : Char) (l : Str) : breakAtLast c l = none ↔ c ∉ l := by
  induction l with
  | nil => simp [breakAtLast]
  | cons x xs ih =>
    cases hr : breakAtLast c xs with
    | some pq =>
      obtain ⟨p, q⟩ := pq
      rw [breakAtLast_cons, hr]
      have hmem : c ∈ xs := by
        by_contra hc
        rw [(ih).mpr hc] at hr
        cases hr
      simp [hmem]
    | none =>
      rw [breakAtLast_cons, hr]
      by_cases hx : x = c
      · simp [hx]
      · have h1 : c ∉ xs := ih.mp hr
        simp only [hx, if_false]
        constructor
        · intro _ hmem
          rcases List.mem_cons.mp hmem with h2 | h2
          · exact hx h2.symm
          · exact h1 h2
        · intro _
          trivial

theorem breakAtLast_append (c : Char) (pre post : Str) (h : c ∉ post) :
    breakAtLast c (pre ++ c :: post) = some (pre, post) := by
  induction pre with
  | nil =>
    rw [List.nil_append, breakAtLast_cons, (breakAtLast_eq_none c post).mpr h]
    simp
  | cons x pre' ih =>
    rw [List.cons_append, breakAtLast_cons, ih]

-- ## C5, C8, C10

/-- C5: the File Locator rejects a path without any '/' with InvalidPathError
independently of the backend (hence before any backend call); a path with a
slash is split at the LAST slash into directory prefix and file name, and an
empty prefix resolves to the root id "0". -/
theorem C5_locator_split :
    (∀ (b : ListBackend) (fp : Str), '/' ∉ fp →
        resolveFilePickCode b fp = .error .invalidPath) ∧
    (∀ (b : ListBackend) (pre post : Str), '/' ∉ post →
        resolveFilePickCode b (pre ++ '/' :: post) = locateStage b pre post) ∧
    (∀ b : ListBackend, locatorDirCid b [] = .ok (str "0")) := by
  refine ⟨?_, ?_, ?_⟩
  · intro b fp h
    unfold resolveFilePickCode
    rw [(breakAtLast_eq_none '/' fp).mpr h]
  · intro b pre post h
    unfold resolveFilePickCode
    rw [breakAtLast_append '/' pre post h]
  · intro b
    rfl

theorem C5_locator_split_witness :
    resolveFilePickCode c5B (str "noslash") = .error .invalidPath ∧
    resolveFilePickCode c5B ([] ++ '/' :: str "a.b") = locateStage c5B [] (str "a.b") ∧
    locatorDirCid c5B [] = .ok (str "0") :=
  ⟨C5_locator_split.1 c5B (str "noslash") (by decide),
   C5_locator_split.2.1 c5B [] (str "a.b") (by decide),
   C5_locator_split.2.2 c5B⟩

/-- C8: the root paths (empty and "/") resolve to the sentinel "0" in both
resolution sites, for every backend whatsoever — no backend lookup is involved. -/
theorem C8_root_resolution : ∀ b : ListBackend,
    resolveListCid b (str "/") = .ok (str "0") ∧
    resolveListCid b [] = .ok (str "0") ∧
    locatorDirCid b [] = .ok (str "0") ∧
    locatorDirCid b (str "/") = .ok (str "0") := by
  intro b
  exact ⟨rfl, rfl, rfl, rfl⟩

/-- C10: for a non-directory entry, the stored name is unchanged; when the
name contains a '.', the extension is the lowercased part after the LAST dot
and nameNoExt the unmodified part before it; with no dot, nameNoExt is the
whole name and the extension is empty (hence omitted by omitempty). -/
theorem C10_extension_fields (f : FsEntry) (hf : f.isDirectory = false) :
    (mkFileItem f).name = f.name ∧
    (∀ pre post, f.name = pre ++ '.' :: post → '.' ∉ post →
        (mkFileItem f).extension = goToLower post ∧ (mkFileItem f).nameNoExt = pre) ∧
    ('.' ∉ f.name →
        (mkFileItem f).nameNoExt = f.name ∧ (mkFileItem f).extension = []) := by
  have hdir : ¬(f.isDirectory = true) := by simp [hf]
  cases hb : breakAtLast '.' f.name with
  | some pq =>
    obtain ⟨pre0, post0⟩ := pq
    have hm : mkFileItem f =
        { name := f.name, type := str "file",
          extension := goToLower post0, nameNoExt := pre0 } := by
      unfold mkFileItem
      rw [if_neg hdir, hb]
    refine ⟨by rw [hm], ?_, ?_⟩
    · intro pre post hname hpost
      have hb2 : breakAtLast '.' f.name = some (pre, post) := by
        rw [hname]
        exact breakAtLast_append '.' pre post hpost
      rw [hb] at hb2
      have hpre : pre0 = pre := by
        injection hb2 with h1
        exact (Prod.mk.injEq _ _ _ _ ▸ h1).1
      have hpost0 : post0 = post := by
        injection hb2 with h1
        exact (Prod.mk.injEq _ _ _ _ ▸ h1).2
      subst hpre
      subst hpost0
      exact ⟨by rw [hm], by rw [hm]⟩
    · intro hnot
      exfalso
      rw [(breakAtLast_eq_none '.' f.name).mpr hnot] at hb
      cases hb
  | none =>
    have hnotmem : '.' ∉ f.name := (breakAtLast_eq_none '.' f.name).mp hb
    have hm : mkFileItem f =
        { name := f.name, type := str "file", extension := [], nameNoExt := f.name } := by
      unfold mkFileItem
      rw [if_neg hdir, hb]
    refine ⟨by rw [hm], ?_, fun _ => ⟨by rw [hm], by rw [hm]⟩⟩
    intro pre post hname _
    exfalso
    apply hnotmem
    rw [hname]
    exact List.mem_append.mpr (Or.inr (List.mem_cons_self '.' post))

theorem C10_extension_fields_witness :
    (mkFileItem c10F).extension = goToLower (str "MKV") ∧
    (mkFileItem c10F).nameNoExt = str "Movie" ∧
    (mkFileItem c10G).nameNoExt = c10G.name ∧
    (mkFileItem c10G).extension = [] :=
  ⟨((C10_extension_fields c10F rfl).2.1 (str "Movie") (str "MKV") (by decide) (by decide)).1,
   ((C10_extension_fields c10F rfl).2.1 (str "Movie") (str "MKV") (by decide) (by decide)).2,
   ((C10_extension_fields c10G rfl).2.2 (by decide)).1,
   ((C10_extension_fields c10G rfl).2.2 (by decide)).2⟩

-- ## C1: path resolution delegates to DirName2CID, it does not walk

theorem locatorDirCid_nonroot (b : ListBackend) (p : Str)
    (h1 : p ≠ str "/") (h2 : p ≠ []) :
    locatorDirCid b p =
      match b.dirName2CID p with
      | .ok r => .ok r.categoryID
      | .error e => .error (str "解析目录路径失败: " ++ e) := by
  unfold locatorDirCid
  simp only [if_neg h2, if_neg h1]

/-- C1 counterexample: two backends that agree on every child listing (the
root is empty in both) but differ in the DirName2CID primitive make the
code resolve "a" to "42" and "7" respectively, while the claimed
segment-walk algorithm fails with PathNotFoundError("a") on these listings.
Resolution therefore uses the backend path-to-id primitive and does not walk. -/
theorem C1_counterexample :
    resolveListCid c1B1 (str "a") = .ok (str "42") ∧
    resolveListCid c1B2 (str "a") = .ok (str "7") ∧
    c1B1.listChildren = c1B2.listChildren ∧
    resolveWalkSpec c1B1 (str "a") = .error (.pathNotFound (str "a")) :=
  ⟨rfl, rfl, rfl, rfl⟩

/-- C1 amended: for every non-root path, resolution delegates wholesale to
the backend's DirName2CID primitive — the result depends only on that
primitive (never on any child listing), a successful call's CategoryID is
returned as-is, and an error is returned wrapped; the locator-side directory
resolution behaves the same way. -/
theorem C1_amended_delegates (b b' : ListBackend) (p : Str)
    (h1 : p ≠ str "/") (h2 : p ≠ []) (hsame : b.dirName2CID = b'.dirName2CID) :
    resolveListCid b p = resolveListCid b' p ∧
    (∀ r, b.dirName2CID p = .ok r → resolveListCid b p = .ok r.categoryID) ∧
    (∀ e, b.dirName2CID p = .error e →
        resolveListCid b p = .error (str "解析路径失败: " ++ e)) ∧
    (∀ r, b.dirName2CID p = .ok r → locatorDirCid b p = .ok r.categoryID) := by
  have hcond : ¬(p = str "/" ∨ p = []) := by tauto
  refine ⟨?_, ?_, ?_, ?_⟩
  · unfold resolveListCid
    rw [hsame]
  · intro r hr
    unfold resolveListCid
    rw [if_neg hcond, hr]
  · intro e he
    unfold resolveListCid
    rw [if_neg hcond, he]
  · intro r hr
    rw [locatorDirCid_nonroot b p h1 h2, hr]

theorem C1_amended_delegates_witness :
    resolveListCid c1B1 (str "a") = .ok (DirResult.mk (str "42")).categoryID ∧
    locatorDirCid c1B1 (str "a") = .ok (DirResult.mk (str "42")).categoryID :=
  ⟨(C1_amended_delegates c1B1 c1B1 (str "a") (by decide) (by decide) rfl).2.1
      ⟨str "42"⟩ rfl,
   (C1_amended_delegates c1B1 c1B1 (str "a") (by decide) (by decide) rfl).2.2.2
      ⟨str "42"⟩ rfl⟩

-- ## C6: the file scan returns the first non-directory exact-name match

/-- C6: once the containing directory has resolved to cid and its listing
succeeded with files, the locator succeeds exactly on the first entry that
is a non-directory with exactly the target name (returning its pickCode),
and fails with fileNotFound exactly when no such entry exists. -/
theorem C6_scan_first_match (b : ListBackend) (dp fn cid : Str) (files : List FsEntry)
    (hdir : locatorDirCid b dp = .ok cid)
    (hlist : b.listChildren (if cid = [] then str "0" else cid) = .ok files) :
    (∀ f pc, locateStage b dp fn = .ok (f, pc) ↔
      (pc = f.pickCode ∧ f.isDirectory = false ∧ f.name = fn ∧
        ∃ l1 l2, files = l1 ++ f :: l2 ∧
          ∀ g ∈ l1, ¬(g.isDirectory = false ∧ g.name = fn))) ∧
    (locateStage b dp fn = .error (.fileNotFound fn) ↔
      ∀ g ∈ files, ¬(g.isDirectory = false ∧ g.name = fn)) := by
  have hstage1 : locateStage b dp fn =
      match getFilesSortedByName b cid with
      | .error e => .error (.listFailed e)
      | .ok files =>
        match scanForFile files fn with
        | some f => .ok (f, f.pickCode)
        | none => .error (.fileNotFound fn) := by
    unfold locateStage
    rw [hdir]
  have hstage : locateStage b dp fn =
      match scanForFile files fn with
      | some f => .ok (f, f.pickCode)
      | none => .error (.fileNotFound fn) := by
    rw [hstage1]
    unfold getFilesSortedByName
    rw [hlist]
  have hpred : ∀ g : FsEntry,
      ((!g.isDirectory && g.name == fn) = true) ↔ (g.isDirectory = false ∧ g.name = fn) := by
    intro g
    simp [Bool.and_eq_true, Bool.not_eq_true', beq_iff_eq]
  constructor
  · intro f pc
    constructor
    · intro h
      cases hscan : scanForFile files fn with
      | none =>
        rw [hstage, hscan] at h
        cases h
      | some f0 =>
        rw [hstage, hscan] at h
        injection h with h1
        injection h1 with hf hpc
        unfold scanForFile at hscan
        obtain ⟨hp, l1, l2, hsplit, hfirst⟩ := List.find?_eq_some.mp hscan
        obtain ⟨hd0, hn0⟩ := (hpred f0).mp hp
        subst hf
        subst hpc
        refine ⟨rfl, hd0, hn0, l1, l2, hsplit, ?_⟩
        intro g hg hc
        have hb := hfirst g hg
        have hfalse : (!g.isDirectory && g.name == fn) = true := (hpred g).mpr hc
        rw [hfalse] at hb
        simp at hb
    · rintro ⟨hpc, hd0, hn0, l1, l2, hsplit, hfirst⟩
      have hscan : scanForFile files fn = some f := by
        unfold scanForFile
        apply List.find?_eq_some.mpr
        refine ⟨(hpred f).mpr ⟨hd0, hn0⟩, l1, l2, hsplit, ?_⟩
        intro g hg
        have hng := hfirst g hg
        cases hx : (!g.isDirectory && g.name == fn) with
        | false => simp
        | true => exact absurd ((hpred g).mp hx) hng
      rw [hstage, hscan, hpc]
  · constructor
    · intro h
      cases hscan : scanForFile files fn with
      | some f0 =>
        rw [hstage, hscan] at h
        cases h
      | none =>
        unfold scanForFile at hscan
        have hnone := List.find?_eq_none.mp hscan
        intro g hg hc
        exact hnone g hg ((hpred g).mpr hc)
    · intro h
      have hnone : scanForFile files fn = none := by
        unfold scanForFile
        apply List.find?_eq_none.mpr
        intro g hg hc
        exact h g hg ((hpred g).mp hc)
      rw [hstage, hnone]

theorem C6_scan_first_match_witness :
    locateStage c6B (str "/") (str "a.mkv") = .ok (c6F, c6F.pickCode) :=
  ((C6_scan_first_match c6B (str "/") (str "a.mkv") (str "0") [c6F] rfl rfl).1
      c6F c6F.pickCode).mpr
    ⟨rfl, rfl, by decide, [], [c6F].tail, rfl, by simp⟩

-- ## C7: there is no --sort flag; the order parameter is fixed

/-- C7 counterexample: main registers only the action and path flags
(src/main.go:51-55); no sort flag exists, so a --sort option cannot be
accepted, defaulted to time, or passed through. -/
theorem C7_counterexample : (str "sort") ∉ mainFlagNames := by decide

/-- C7 amended: the list action accepts no --sort flag (only --action and
--path are registered), and the listing request always passes the driver's
fixed by-name order constant (with natsort=1) as the order hint, for every
directory and limit. -/
theorem C7_amended_no_sort_flag :
    (str "sort") ∉ mainFlagNames ∧
    (str "action") ∈ mainFlagNames ∧
    (str "path") ∈ mainFlagNames ∧
    (∀ orderByName dirID limitStr,
      List.lookup (str "o") (listRequestParams orderByName dirID limitStr) =
        some orderByName ∧
      List.lookup (str "natsort") (listRequestParams orderByName dirID limitStr) =
        some (str "1")) := by
  refine ⟨by decide, by decide, by decide, ?_⟩
  intro o d l
  exact ⟨rfl, rfl⟩

-- ## C3: no-streams failure exactly when both sources are empty

/-- C3: handleGetStreams fails (with the no-streams error) exactly when both
the direct-source step and the adaptive-manifest step produced zero
candidates; the failure of a single source is swallowed, and in particular a
manifest fetch failure combined with a successful non-empty source link
yields success with exactly the one Source candidate. -/
theorem C3_no_streams_iff_both_empty : ∀ b : StreamBackend,
    ((∃ e, handleGetStreamsModel b = .error e) ↔
      (sourceCands b = [] ∧ adaptiveCands b = [])) ∧
    (sourceCands b = [] ∧ adaptiveCands b = [] →
      handleGetStreamsModel b = .error noStreamsMsg) ∧
    (∀ u e, b.download = .ok u → u ≠ [] → b.m3u8 = .error e →
      handleGetStreamsModel b = .ok [⟨srcQ, u, false⟩]) := by
  intro b
  have hcol : collectCandidates b = sourceCands b ++ adaptiveCands b := rfl
  have hboth : sourceCands b = [] ∧ adaptiveCands b = [] →
      handleGetStreamsModel b = .error noStreamsMsg := by
    rintro ⟨h1, h2⟩
    unfold handleGetStreamsModel
    rw [if_pos (by rw [hcol, h1, h2]; rfl)]
  refine ⟨⟨?_, fun h => ⟨noStreamsMsg, hboth h⟩⟩, hboth, ?_⟩
  · rintro ⟨e, he⟩
    unfold handleGetStreamsModel at he
    by_cases hc : collectCandidates b = []
    · rw [hcol] at hc
      exact List.append_eq_nil.mp hc
    · rw [if_neg hc] at he
      cases he
  · intro u e hd hu hm
    have hsrc : sourceCands b = [⟨srcQ, u, false⟩] := by
      have h1 : sourceCands b = if u ≠ [] then [⟨srcQ, u, false⟩] else [] := by
        unfold sourceCands
        rw [hd]
      rw [h1, if_pos hu]
    have hcands : collectCandidates b = [⟨srcQ, u, false⟩] := by
      rw [hcol, hsrc, adaptiveCands_error b e hm]
      rfl
    unfold handleGetStreamsModel
    rw [hcands]
    rw [if_neg (by simp)]
    rfl

theorem C3_no_streams_iff_both_empty_witness :
    handleGetStreamsModel c3B = .ok [⟨srcQ, str "http://u", false⟩] :=
  (C3_no_streams_iff_both_empty c3B).2.2 (str "http://u") (str "fetch failed")
    rfl (by decide) rfl

-- ## C9: at most one Source candidate; adaptive candidates are m3u8

/-- C9: every collected candidate list contains at most one candidate with
quality "Source" (so the ranking comparator is never applied to two Source
candidates); a Source candidate always has isM3U8 false, and every
manifest-derived candidate has isM3U8 true. -/
theorem C9_at_most_one_source : ∀ b : StreamBackend,
    (collectCandidates b).countP (fun s => decide (s.quality = srcQ)) ≤ 1 ∧
    (∀ s ∈ collectCandidates b, s.quality = srcQ → s.isM3U8 = false) ∧
    (∀ s ∈ adaptiveCands b, s.isM3U8 = true) := by
  intro b
  have hadap0 : (adaptiveCands b).countP (fun s => decide (s.quality = srcQ)) = 0 := by
    rw [List.countP_eq_zero]
    intro s hs
    simp [(mem_adaptiveCands b s hs).2.2]
  refine ⟨?_, ?_, fun s hs => (mem_adaptiveCands b s hs).1⟩
  · rcases collect_shape b with ⟨-, h2⟩ | ⟨u, -, h2⟩
    · rw [h2, hadap0]
      omega
    · rw [h2]
      rw [List.countP_cons]
      rw [hadap0]
      simp
  · intro s hs hq
    rcases collect_shape b with ⟨-, h2⟩ | ⟨u, -, h2⟩
    · rw [h2] at hs
      exact absurd hq (mem_adaptiveCands b s hs).2.2
    · rw [h2] at hs
      rcases List.mem_cons.mp hs with rfl | hs
      · rfl
      · exact absurd hq (mem_adaptiveCands b s hs).2.2

theorem C9_at_most_one_source_witness :
    (collectCandidates c9B).countP (fun s => decide (s.quality = srcQ)) ≤ 1 ∧
    (⟨srcQ, str "http://u", false⟩ : StreamInfo).isM3U8 = false ∧
    (⟨str "480p", str "http://v", true⟩ : StreamInfo).isM3U8 = true :=
  ⟨(C9_at_most_one_source c9B).1,
   (C9_at_most_one_source c9B).2.1 ⟨srcQ, str "http://u", false⟩ (by decide) rfl,
   (C9_at_most_one_source c9B).2.2 ⟨str "480p", str "http://v", true⟩ (by decide)⟩

-- ## C4: the URL line is the immediately following line, not the next
-- non-empty one

/-- C4 counterexample: in a manifest whose stream-info tag line is followed
by a blank line and then an http URL line, the claim's next-non-empty-line
rule yields a 720p candidate, but the code inspects only the immediately
following (blank) line and produces no candidate at all. -/
theorem C4_counterexample :
    adaptiveFromBody c4Body = [] ∧
    variantsNextNonEmptySpec (splitChar '\n' c4Body) =
      [⟨str "720p", str "http://e/v.m3u8", true⟩] := by
  constructor
  · decide
  · decide

theorem variantsByNextLine_cons2 (line next : Str) (t : List Str) :
    variantsByNextLine (line :: next :: t) =
      (match variantOfPair line next with
       | some s => [s]
       | none => []) ++ variantsByNextLine (next :: t) := by
  unfold variantsByNextLine
  rw [List.tail_cons, List.tail_cons, List.zip_cons_cons, List.filterMap_cons]
  cases variantOfPair line next <;> rfl

theorem parseVariants_eq_byNextLine (lines : List Str) :
    parseVariants lines = variantsByNextLine lines := by
  induction lines with
  | nil => rfl
  | cons line rest ih =>
    cases rest with
    | nil =>
      rw [parseVariants_cons]
      have h0 : parseVariants ([] : List Str) = [] := rfl
      rw [h0]
      cases ht : (str "#EXT-X-STREAM-INF").isPrefixOf line with
      | false => rfl
      | true => rfl
    | cons next t =>
      have hv : variantOfPair line next =
          if (str "#EXT-X-STREAM-INF").isPrefixOf line then
            (if (str "http").isPrefixOf (goTrimSpace next) then
              some ⟨variantQuality line, goTrimSpace next, true⟩ else none)
          else none := rfl
      have hpc : parseVariants (line :: next :: t) =
          (if (str "#EXT-X-STREAM-INF").isPrefixOf line then
            (if (str "http").isPrefixOf (goTrimSpace next) then
              [(⟨variantQuality line, goTrimSpace next, true⟩ : StreamInfo)] else [])
          else []) ++ parseVariants (next :: t) := rfl
      rw [hpc, ih, variantsByNextLine_cons2, hv]
      cases ht : (str "#EXT-X-STREAM-INF").isPrefixOf line with
      | false => rfl
      | true =>
        cases hu : (str "http").isPrefixOf (goTrimSpace next) with
        | false => rfl
        | true => rfl

/-- C4 amended: adaptive candidates are produced only when the body begins
with the playlist magic marker, and then each line beginning with the
stream-info tag contributes the IMMEDIATELY FOLLOWING line,
whitespace-trimmed, as that variant's URL, accepted only when it starts with
http; the quality label is "<height>p" from the RESOLUTION attribute or
"Unknown" when absent or unparseable, and isM3U8 is true on every such
candidate.  (The original "next non-empty line" is corrected: a tag followed
by a blank line contributes nothing.) -/
theorem C4_amended_next_line (body : Str) :
    adaptiveFromBody body =
      (if (str "#EXTM3U").isPrefixOf body then
        variantsByNextLine (splitChar '\n' body) else []) ∧
    (∀ s ∈ adaptiveFromBody body,
      s.isM3U8 = true ∧ (str "http").isPrefixOf s.url = true) := by
  constructor
  · unfold adaptiveFromBody
    by_cases hm : (str "#EXTM3U").isPrefixOf body
    · rw [if_pos hm, if_pos hm]
      exact parseVariants_eq_byNextLine _
    · rw [if_neg hm, if_neg hm]
  · intro s hs
    unfold adaptiveFromBody at hs
    by_cases hm : (str "#EXTM3U").isPrefixOf body
    · rw [if_pos hm] at hs
      exact ⟨(mem_parseVariants s _ hs).1, (mem_parseVariants s _ hs).2.1⟩
    · rw [if_neg hm] at hs
      cases hs

theorem C4_amended_next_line_witness :
    adaptiveFromBody c4WBody =
      (if (str "#EXTM3U").isPrefixOf c4WBody then
        variantsByNextLine (splitChar '\n' c4WBody) else []) ∧
    ((⟨str "1080p", str "http://w/hi.m3u8", true⟩ : StreamInfo).isM3U8 = true ∧
      (str "http").isPrefixOf
        ((⟨str "1080p", str "http://w/hi.m3u8", true⟩ : StreamInfo).url) = true) :=
  ⟨(C4_amended_next_line c4WBody).1,
   (C4_amended_next_line c4WBody).2 ⟨str "1080p", str "http://w/hi.m3u8", true⟩
     (by decide)⟩

-- ## C2: ranking — total order and stability

/-- C2 counterexample: the collected candidate list [720p, Unknown, 1080p]
(direct source failed; manifest with three variants, the middle one without
a RESOLUTION attribute) is returned by the ranker unchanged, so the
parseable labels come out as 720 before 1080 — NOT in descending numeric
order — because the comparator answers false as soon as either side fails
to parse. -/
theorem C2_counterexample :
    rankStreams (collectCandidates c2B) =
      [⟨str "720p", str "http://a", true⟩, ⟨str "Unknown", str "http://b", true⟩,
       ⟨str "1080p", str "http://c", true⟩] ∧
    (rankStreams (collectCandidates c2B)).filterMap qVal = [(720 : Int), 1080] ∧
    ¬ List.Chain' (fun x y : Int => x ≥ y)
      ((rankStreams (collectCandidates c2B)).filterMap qVal) := by
  refine ⟨by decide, by decide, ?_⟩
  intro hch
  rw [show (rankStreams (collectCandidates c2B)).filterMap qVal =
      [(720 : Int), 1080] from by decide] at hch
  have h12 := List.chain'_pair.mp hch
  omega

/-- C2 amended: for every collected candidate list of length at most 12
(where Go's sort.Slice is plain insertion sort, which the model reproduces
exactly) in which every non-Source label parses as a number followed by p,
the ranking output is a permutation of the input, any Source candidate sorts
first, the non-Source candidates appear in descending numeric order, and
candidates with equal numeric value keep their original relative order.
(The original claim fails when an unparseable label such as "Unknown" sits
among parseable ones.) -/
theorem C2_amended_rank (b : StreamBackend)
    (hp : ∀ s ∈ collectCandidates b, s.quality ≠ srcQ → (qVal s).isSome)
    (_hlen : (collectCandidates b).length ≤ 12) :
    List.Perm (rankStreams (collectCandidates b)) (collectCandidates b) ∧
    (∀ s ∈ collectCandidates b, s.quality = srcQ →
      (rankStreams (collectCandidates b)).head? = some s) ∧
    List.Chain' (fun x y => qKey x ≥ qKey y)
      ((rankStreams (collectCandidates b)).filter
        (fun s => decide (s.quality ≠ srcQ))) ∧
    (∀ v : Int,
      (rankStreams (collectCandidates b)).filter (fun s => decide (qKey s = v)) =
        (collectCandidates b).filter (fun s => decide (qKey s = v))) := by
  rcases collect_shape b with ⟨-, h2⟩ | ⟨u, -, h2⟩
  · have hns : ∀ s ∈ collectCandidates b, s.quality ≠ srcQ := by
      intro s hs
      rw [h2] at hs
      exact (mem_adaptiveCands b s hs).2.2
    have hall : ∀ s ∈ collectCandidates b, (qVal s).isSome :=
      fun s hs => hp s hs (hns s hs)
    have hcongr : rankStreams (collectCandidates b) =
        sortSliceModel (lessK qKey) (collectCandidates b) :=
      sortSlice_congr _ (fun x hx y hy => goLess_eq_lessK x y (hall x hx) (hall y hy))
    refine ⟨sortSlice_perm goLess _, ?_, ?_, ?_⟩
    · intro s hs hq
      exact absurd hq (hns s hs)
    · rw [hcongr]
      have hfe : (sortSliceModel (lessK qKey) (collectCandidates b)).filter
          (fun s => decide (s.quality ≠ srcQ)) =
          sortSliceModel (lessK qKey) (collectCandidates b) := by
        rw [List.filter_eq_self]
        intro a ha
        have hmem := (mem_sortSlice _ a _).mp ha
        simp [hns a hmem]
      rw [hfe]
      exact sortSlice_chainK qKey _
    · intro v
      rw [hcongr]
      exact sortSlice_filterK qKey _ v
  · have hadns : ∀ a ∈ adaptiveCands b, a.quality ≠ srcQ :=
      fun a ha => (mem_adaptiveCands b a ha).2.2
    have hbot : ∀ a ∈ adaptiveCands b, goLess a ⟨srcQ, u, false⟩ = false :=
      fun a ha => goLess_source_right a ⟨srcQ, u, false⟩ (hadns a ha) rfl
    have hsplit : rankStreams (collectCandidates b) =
        ⟨srcQ, u, false⟩ :: sortSliceModel goLess (adaptiveCands b) := by
      unfold rankStreams
      rw [h2]
      exact sortSlice_cons_bottom goLess _ _ hbot
    have hall : ∀ a ∈ adaptiveCands b, (qVal a).isSome := by
      intro a ha
      exact hp a (by rw [h2]; exact List.mem_cons_of_mem _ ha) (hadns a ha)
    have hcongr : sortSliceModel goLess (adaptiveCands b) =
        sortSliceModel (lessK qKey) (adaptiveCands b) :=
      sortSlice_congr _ (fun x hx y hy => goLess_eq_lessK x y (hall x hx) (hall y hy))
    refine ⟨sortSlice_perm goLess _, ?_, ?_, ?_⟩
    · intro s hs hq
      rw [hsplit]
      rw [h2] at hs
      rcases List.mem_cons.mp hs with rfl | hs
      · rfl
      · exact absurd hq (hadns s hs)
    · rw [hsplit, hcongr]
      rw [List.filter_cons]
      have h0 : (decide ((⟨srcQ, u, false⟩ : StreamInfo).quality ≠ srcQ)) = false := by
        simp
      rw [h0]
      simp only [Bool.false_eq_true, if_false]
      have hfe : (sortSliceModel (lessK qKey) (adaptiveCands b)).filter
          (fun s => decide (s.quality ≠ srcQ)) =
          sortSliceModel (lessK qKey) (adaptiveCands b) := by
        rw [List.filter_eq_self]
        intro a ha
        have hmem := (mem_sortSlice _ a _).mp ha
        simp [hadns a hmem]
      rw [hfe]
      exact sortSlice_chainK qKey _
    · intro v
      rw [hsplit, hcongr, h2]
      rw [List.filter_cons, List.filter_cons]
      rw [sortSlice_filterK qKey _ v]

theorem C2_amended_rank_witness :
    (∀ s ∈ collectCandidates c2WB, s.quality ≠ srcQ → (qVal s).isSome) ∧
    (collectCandidates c2WB).length ≤ 12 ∧
    (List.Perm (rankStreams (collectCandidates c2WB)) (collectCandidates c2WB) ∧
     (∀ s ∈ collectCandidates c2WB, s.quality = srcQ →
       (rankStreams (collectCandidates c2WB)).head? = some s) ∧
     List.Chain' (fun x y => qKey x ≥ qKey y)
       ((rankStreams (collectCandidates c2WB)).filter
         (fun s => decide (s.quality ≠ srcQ))) ∧
     (∀ v : Int,
       (rankStreams (collectCandidates c2WB)).filter (fun s => decide (qKey s = v)) =
         (collectCandidates c2WB).filter (fun s => decide (qKey s = v)))) :=
  ⟨by decide, by decide, C2_amended_rank c2WB (by decide) (by decide)⟩
